import Mathlib

/-!
Shallow embedding of `addons/io_scene_gltf2/blender/exp/gltf2_blender_extract.py`
(glTF-Blender-IO mesh primitive extraction) and proofs about it.

Conventions of the embedding:
* numpy float arrays become `List ℚ` (exact arithmetic stands in for IEEE floats;
  every claim here is about value flow and branching, not rounding);
* the composite per-corner record ("dot", a numpy structured record whose field
  list is fixed per export run) becomes a `List ℚ` headed by the vertex index,
  compared lexicographically exactly as numpy sorts structured records;
* external `mathutils` results that the module merely consumes
  (`Matrix.to_quaternion().to_matrix()`, `np.linalg.norm`, `np.power(_, 2.4)`)
  enter as explicit parameters, since they are computed outside this file's
  source module.
-/

/-- A 3-vector of rationals, standing in for one row of an `(n, 3)` numpy array. -/
structure Vec3 where
  x : ℚ
  y : ℚ
  z : ℚ
deriving DecidableEq, Repr

/-- A 3×3 matrix given by rows, standing in for a `mathutils.Matrix` 3×3 block. -/
structure Mat3 where
  r0 : Vec3
  r1 : Vec3
  r2 : Vec3
deriving DecidableEq, Repr

/-- Matrix–vector product `m @ v` of the 3×3 linear block. -/
def Mat3.mulVec (m : Mat3) (v : Vec3) : Vec3 :=
  ⟨m.r0.x * v.x + m.r0.y * v.y + m.r0.z * v.z,
   m.r1.x * v.x + m.r1.y * v.y + m.r1.z * v.z,
   m.r2.x * v.x + m.r2.y * v.y + m.r2.z * v.z⟩

/-- Determinant of a 3×3 matrix (`mathutils.Matrix.determinant`). -/
def Mat3.det (m : Mat3) : ℚ :=
  m.r0.x * (m.r1.y * m.r2.z - m.r1.z * m.r2.y)
    - m.r0.y * (m.r1.x * m.r2.z - m.r1.z * m.r2.x)
    + m.r0.z * (m.r1.x * m.r2.y - m.r1.y * m.r2.x)

/-- Vector addition. -/
def Vec3.add (a b : Vec3) : Vec3 := ⟨a.x + b.x, a.y + b.y, a.z + b.z⟩

/-- Vector subtraction (numpy `vs -= locs`, elementwise). -/
def Vec3.sub (a b : Vec3) : Vec3 := ⟨a.x - b.x, a.y - b.y, a.z - b.z⟩

/-- `__zup2yup` from the source, acting on one row: `x,y,z -> x,z,-y`
(swap the y/z columns, then negate the new z column). -/
def zup2yup (v : Vec3) : Vec3 := ⟨v.x, v.z, -v.y⟩

/-- `__zup2yup` applied to a whole array, as the source does in place. -/
def zup2yupAll (vs : List Vec3) : List Vec3 := vs.map zup2yup

/-- Modelled from the spec: the Y-up conversion "applied with inverse
semantics", i.e. the inverse coordinate change `x,y,z -> x,-z,y` taking Y-up
coordinates back to Z-up.  The source has no such function; §8 of the spec uses
it only to state the involution property. -/
def yup2zup (v : Vec3) : Vec3 := ⟨v.x, -v.z, v.y⟩

namespace GltfExtract

/-- A composite corner record ("dot"): the per-corner deduplication key.  The
source builds a numpy structured record `(vertex_index, nx, ny, nz, tx, ...)`
whose field list is fixed once per export; we model it as the flat list of its
field values in field order (the vertex index, a small nonnegative integer,
first).  numpy compares and sorts structured records lexicographically by field
order, which is exactly the lexicographic order on these lists. -/
abbrev Dot := List ℚ

/-- `np.unique(xs, return_inverse=True)` on a 1-d array of records:
returns the distinct values in ascending sorted order together with, for each
input position, the index of its value in that sorted list. -/
def npUnique {α : Type} [LinearOrder α] (xs : List α) :
    List α × List Nat :=
  let uniques := List.insertionSort (· ≤ ·) xs.dedup
  (uniques, xs.map (fun x => uniques.indexOf x))

/-- The mesh-side inputs of the triangle/primitive part of
`extract_primitives`: the per-loop composite records, the loop triangles
(each triangle's three loop indices, `loop_triangles.foreach_get('loops')`),
and the per-triangle material index
(`loop_triangles.foreach_get('material_index')`). -/
structure MeshData where
  dots : List Dot
  loopTriangles : List (Nat × Nat × Nat)
  triMaterialIdxs : List Nat
deriving Repr

/-- `loop_indices`: the flattened `loops` of all loop triangles
(`len(loop_triangles) * 3` entries). -/
def loopIndices (m : MeshData) : List Nat :=
  m.loopTriangles.flatMap (fun t => [t.1, t.2.1, t.2.2])

/-- `loop_material_idxs = np.repeat(tri_material_idxs, 3)`: the material index
for every loop of the triangle stream. -/
def loopMaterialIdxs (m : MeshData) : List Nat :=
  m.triMaterialIdxs.flatMap (fun i => [i, i, i])

/-- `unique_material_idxs = np.unique(tri_material_idxs)`: distinct material
indices in ascending order. -/
def uniqueMaterialIdxs (m : MeshData) : List Nat :=
  (npUnique m.triMaterialIdxs).1

/-- `loop_indices[loop_material_idxs == material_idx]`: boolean-mask selection
of the loop indices belonging to one material bucket. -/
def bucketLoopIndices (m : MeshData) (materialIdx : Nat) : List Nat :=
  ((loopIndices m).zip (loopMaterialIdxs m)).filterMap
    (fun p => if p.2 = materialIdx then some p.1 else none)

/-- The `prim_indices` dict in iteration order: one entry per material bucket.
With `use_materials == "NONE"` a single `-1`-keyed bucket holds every loop;
otherwise one bucket per distinct material index, in ascending index order
(Python dicts iterate in insertion order, and the source inserts while walking
`np.unique`'s sorted output). -/
def primIndices (m : MeshData) (useMaterials : String) : List (Int × List Nat) :=
  if useMaterials = "NONE" then
    [(-1, loopIndices m)]
  else
    (uniqueMaterialIdxs m).map (fun mi => (Int.ofNat mi, bucketLoopIndices m mi))

/-- One produced glTF primitive.  `dotsU` is the deduplicated record sequence
(`prim_dots` after `np.unique`); each attribute array of the real primitive is
a per-field projection of it, so it carries the primitive's vertex data. -/
structure Primitive where
  dotsU : List Dot
  indices : List Nat
  material : Int
deriving DecidableEq, Repr

/-- An attribute array of a primitive: one field (or derived field tuple)
extracted from every deduplicated record, e.g. `prim_dots['nx']`. -/
def Primitive.attrArray (p : Primitive) (f : Dot → ℚ) : List ℚ :=
  p.dotsU.map f

/-- The per-bucket body of the primitive loop: gather `dots[dot_indices]`,
deduplicate with `np.unique(..., return_inverse=True)`, and skip the bucket
when nothing remains (`if len(prim_dots) == 0: continue`).  Out-of-range
gathers (which never occur for a well-formed mesh) read a default record. -/
def makePrim (dots : List Dot) (materialIdx : Int) (dotIdx : List Nat) :
    Option Primitive :=
  let primDots := dotIdx.map (fun i => dots.getD i [])
  let u := npUnique primDots
  if u.1.length = 0 then none
  else some ⟨u.1, u.2, materialIdx⟩

/-- The triangle-sorting and primitive-building part of `extract_primitives`
(source lines 182–302), starting from the assembled dot array. -/
def extract_primitives (m : MeshData) (useMaterials : String) : List Primitive :=
  (primIndices m useMaterials).filterMap (fun p => makePrim m.dots p.1 p.2)

/-- Modelled from the spec: "the ordered sequence of distinct records in the
order their first corner appears" — first-occurrence deduplication, which §4.4
claims the deduplicator produces.  Used only to compare against `npUnique`. -/
def firstOccurrencesAux (seen : List Dot) : List Dot → List Dot
  | [] => []
  | a :: l =>
      if a ∈ seen then firstOccurrencesAux seen l
      else a :: firstOccurrencesAux (a :: seen) l

/-- Modelled from the spec: the distinct records in the order their first
corner appears in the stream (see `firstOccurrencesAux`). -/
def firstOccurrences (l : List Dot) : List Dot := firstOccurrencesAux [] l

end GltfExtract

namespace GltfExtract

/-! ### Properties of the `np.unique` model -/

theorem mem_npUnique {α : Type} [LinearOrder α] {xs : List α} {x : α} :
    x ∈ (npUnique xs).1 ↔ x ∈ xs := by
  unfold npUnique
  simp only
  rw [(List.perm_insertionSort (· ≤ ·) xs.dedup).mem_iff, List.mem_dedup]

theorem nodup_npUnique {α : Type} [LinearOrder α] (xs : List α) :
    (npUnique xs).1.Nodup := by
  unfold npUnique
  simp only
  exact (List.perm_insertionSort (· ≤ ·) xs.dedup).symm.nodup xs.nodup_dedup

theorem sorted_npUnique {α : Type} [LinearOrder α] (xs : List α) :
    (npUnique xs).1.Sorted (· < ·) := by
  have hs : (npUnique xs).1.Sorted (· ≤ ·) := by
    unfold npUnique
    simp only
    exact List.sorted_insertionSort (· ≤ ·) xs.dedup
  exact hs.lt_of_le (nodup_npUnique xs)

theorem npUnique_snd_get {α : Type} [LinearOrder α] [Inhabited α] (xs : List α)
    (i : ℕ) (hi : i < xs.length) :
    (npUnique xs).2.getD i 0 = (npUnique xs).1.indexOf (xs.getD i default) := by
  unfold npUnique
  simp only
  rw [List.getD_eq_getElem _ _ (by simpa), List.getElem_map,
    List.getD_eq_getElem _ _ hi]

theorem npUnique_snd_length {α : Type} [LinearOrder α] (xs : List α) :
    (npUnique xs).2.length = xs.length := by
  unfold npUnique
  simp

theorem npUnique_fst_nil_iff {α : Type} [LinearOrder α] (xs : List α) :
    (npUnique xs).1.length = 0 ↔ xs = [] := by
  constructor
  · intro h
    rcases xs with _ | ⟨a, l⟩
    · rfl
    · exfalso
      have : a ∈ (npUnique (a :: l)).1 := mem_npUnique.2 (List.mem_cons_self a l)
      rw [List.length_eq_zero] at h
      rw [h] at this
      exact (List.not_mem_nil a) this
  · intro h
    subst h
    rfl

theorem npUnique_inverse_lt {α : Type} [LinearOrder α] [Inhabited α] (xs : List α)
    (i : ℕ) (hi : i < xs.length) :
    (npUnique xs).2.getD i 0 < (npUnique xs).1.length := by
  rw [npUnique_snd_get xs i hi]
  exact List.indexOf_lt_length.2
    (mem_npUnique.2 (by rw [List.getD_eq_getElem _ _ hi]; exact List.getElem_mem hi))

end GltfExtract

namespace GltfExtract

theorem npUnique_inverse_eq_iff {α : Type} [LinearOrder α] [Inhabited α]
    (xs : List α) (i j : ℕ) (hi : i < xs.length) (hj : j < xs.length) :
    (npUnique xs).2.getD i 0 = (npUnique xs).2.getD j 0 ↔
      xs.getD i default = xs.getD j default := by
  rw [npUnique_snd_get xs i hi, npUnique_snd_get xs j hj]
  have hxi : xs.getD i default ∈ (npUnique xs).1 :=
    mem_npUnique.2 (by rw [List.getD_eq_getElem _ _ hi]; exact List.getElem_mem hi)
  have hxj : xs.getD j default ∈ (npUnique xs).1 :=
    mem_npUnique.2 (by rw [List.getD_eq_getElem _ _ hj]; exact List.getElem_mem hj)
  exact List.indexOf_inj hxi hxj

theorem primDots_getD (dots : List Dot) (dotIdx : List Nat) (i : ℕ)
    (hi : i < dotIdx.length) :
    (dotIdx.map (fun k => dots.getD k [])).getD i default
      = dots.getD (dotIdx.getD i 0) [] := by
  rw [List.getD_eq_getElem _ _ (by simpa), List.getElem_map,
    List.getD_eq_getElem _ _ hi]

theorem makePrim_eq_some {dots : List Dot} {mi : Int} {dotIdx : List Nat}
    {p : Primitive} (hp : makePrim dots mi dotIdx = some p) :
    p.dotsU = (npUnique (dotIdx.map (fun i => dots.getD i []))).1 ∧
      p.indices = (npUnique (dotIdx.map (fun i => dots.getD i []))).2 ∧
      p.material = mi := by
  unfold makePrim at hp
  by_cases h0 : (npUnique (dotIdx.map (fun i => dots.getD i []))).1.length = 0
  · simp only [h0, if_pos] at hp
    exact absurd hp (by simp)
  · simp only [h0, if_false, ite_false, Option.some.injEq] at hp
    rw [← hp]
    exact ⟨rfl, rfl, rfl⟩

end GltfExtract

namespace GltfExtract

/-- C1 (corrected, counterexample): the deduplicator does NOT return the
distinct composite records in the order their first corner appears.  On a
one-triangle mesh whose corner record stream (for the single material bucket)
is `[[1], [0], [0]]`, the first-appearance order of the distinct records is
`[[1], [0]]`, but the produced primitive's deduplicated sequence is the
ascending-sorted `[[0], [1]]`. -/
theorem claim1_counterexample :
    (extract_primitives ⟨[[1], [0], [0]], [(0, 1, 2)], [0]⟩ "EXPORT").map
        Primitive.dotsU = [[[0], [1]]]
    ∧ firstOccurrences (([0, 1, 2] : List Nat).map
        (fun i => ([[1], [0], [0]] : List Dot).getD i [])) = [[1], [0]]
    ∧ ([[(0 : ℚ)], [1]] : List Dot) ≠ ([[1], [0]] : List Dot) := by
  decide

/-- C1 (amended): for every material bucket, the deduplicator returns the
distinct composite corner records of the bucket's corner stream as a strictly
ascending sequence in the underlying record ordering (lexicographic by field,
vertex index first) — not in first-appearance order — and, being a pure
function of the stream (a deterministic sort, not a hash iteration), this
order is identical across repeated runs on identical input. -/
theorem claim1_dedup_sorted_distinct (m : MeshData) (useMaterials : String)
    (mi : Int) (dotIdx : List Nat)
    (hmem : (mi, dotIdx) ∈ primIndices m useMaterials)
    (p : Primitive) (hp : makePrim m.dots mi dotIdx = some p) :
    p.dotsU.Sorted (· < ·) ∧
      (∀ d : Dot, d ∈ p.dotsU ↔ d ∈ dotIdx.map (fun i => m.dots.getD i [])) := by
  obtain ⟨hU, -, -⟩ := makePrim_eq_some hp
  rw [hU]
  exact ⟨sorted_npUnique _, fun d => mem_npUnique⟩

/-- Witness for C1 (amended) at the concrete one-triangle mesh of the
counterexample. -/
theorem claim1_witness :
    ((Int.ofNat 0, ([0, 1, 2] : List Nat)) ∈
        primIndices ⟨[[1], [0], [0]], [(0, 1, 2)], [0]⟩ "EXPORT")
    ∧ (makePrim [[1], [0], [0]] (Int.ofNat 0) [0, 1, 2]
        = some ⟨[[0], [1]], [1, 0, 0], Int.ofNat 0⟩)
    ∧ ((Primitive.mk [[0], [1]] [1, 0, 0] (Int.ofNat 0)).dotsU.Sorted (· < ·) ∧
        (∀ d : Dot, d ∈ (Primitive.mk [[0], [1]] [1, 0, 0] (Int.ofNat 0)).dotsU ↔
          d ∈ ([0, 1, 2] : List Nat).map
            (fun i => (MeshData.mk [[1], [0], [0]] [(0, 1, 2)] [0]).dots.getD i []))) :=
  ⟨by decide, by decide,
    claim1_dedup_sorted_distinct ⟨[[1], [0], [0]], [(0, 1, 2)], [0]⟩ "EXPORT"
      (Int.ofNat 0) [0, 1, 2] (by decide) _ (by decide)⟩

/-- C2: two corners of the same material bucket receive the same deduplicated
index if and only if their full composite records are equal field-by-field
(exact value equality of the record lists, no tolerance). -/
theorem claim2_dedup_soundness (m : MeshData) (useMaterials : String)
    (mi : Int) (dotIdx : List Nat)
    (hmem : (mi, dotIdx) ∈ primIndices m useMaterials)
    (p : Primitive) (hp : makePrim m.dots mi dotIdx = some p)
    (i j : ℕ) (hi : i < dotIdx.length) (hj : j < dotIdx.length) :
    p.indices.getD i 0 = p.indices.getD j 0 ↔
      m.dots.getD (dotIdx.getD i 0) [] = m.dots.getD (dotIdx.getD j 0) [] := by
  obtain ⟨-, hI, -⟩ := makePrim_eq_some hp
  rw [hI]
  have h := npUnique_inverse_eq_iff (dotIdx.map (fun k => m.dots.getD k [])) i j
    (by simpa) (by simpa)
  rwa [primDots_getD _ _ _ hi, primDots_getD _ _ _ hj] at h

/-- Witness for C2: corners 1 and 2 of the concrete one-triangle mesh share a
record and indeed share a deduplicated index. -/
theorem claim2_witness :
    ((Int.ofNat 0, ([0, 1, 2] : List Nat)) ∈
        primIndices ⟨[[1], [0], [0]], [(0, 1, 2)], [0]⟩ "EXPORT")
    ∧ (makePrim [[1], [0], [0]] (Int.ofNat 0) [0, 1, 2]
        = some ⟨[[0], [1]], [1, 0, 0], Int.ofNat 0⟩)
    ∧ (1 : ℕ) < ([0, 1, 2] : List Nat).length ∧ (2 : ℕ) < ([0, 1, 2] : List Nat).length
    ∧ ((Primitive.mk [[0], [1]] [1, 0, 0] (Int.ofNat 0)).indices.getD 1 0 =
          (Primitive.mk [[0], [1]] [1, 0, 0] (Int.ofNat 0)).indices.getD 2 0 ↔
        (MeshData.mk [[1], [0], [0]] [(0, 1, 2)] [0]).dots.getD
            (([0, 1, 2] : List Nat).getD 1 0) [] =
          (MeshData.mk [[1], [0], [0]] [(0, 1, 2)] [0]).dots.getD
            (([0, 1, 2] : List Nat).getD 2 0) []) :=
  ⟨by decide, by decide, by decide, by decide,
    claim2_dedup_soundness ⟨[[1], [0], [0]], [(0, 1, 2)], [0]⟩ "EXPORT"
      (Int.ofNat 0) [0, 1, 2] (by decide) _ (by decide) 1 2 (by decide) (by decide)⟩

end GltfExtract

namespace GltfExtract

theorem npUnique_snd_mem_lt {α : Type} [LinearOrder α] (xs : List α) :
    ∀ i ∈ (npUnique xs).2, i < (npUnique xs).1.length := by
  intro i hi
  unfold npUnique at hi ⊢
  simp only [List.mem_map] at hi
  obtain ⟨x, hx, rfl⟩ := hi
  exact List.indexOf_lt_length.2
    ((List.perm_insertionSort (· ≤ ·) xs.dedup).mem_iff.2 (List.mem_dedup.2 hx))

theorem loopIndices_length (m : MeshData) :
    (loopIndices m).length = 3 * m.loopTriangles.length := by
  unfold loopIndices
  induction m.loopTriangles with
  | nil => rfl
  | cons t ts ih =>
      rw [List.flatMap_cons, List.length_append, ih, List.length_cons]
      simp
      ring

theorem bucket_length_mod3 (ts : List (Nat × Nat × Nat)) (ms : List Nat)
    (h : ts.length = ms.length) (mi : Nat) :
    (((ts.flatMap (fun t => [t.1, t.2.1, t.2.2])).zip
        (ms.flatMap (fun i => [i, i, i]))).filterMap
      (fun p => if p.2 = mi then some p.1 else none)).length % 3 = 0 := by
  induction ts generalizing ms with
  | nil =>
      have : ms = [] := by
        cases ms with
        | nil => rfl
        | cons a l => simp at h
      subst this
      rfl
  | cons t ts ih =>
      cases ms with
      | nil => simp at h
      | cons a l =>
          have hlen : ts.length = l.length := by
            simpa using h
          rw [List.flatMap_cons, List.flatMap_cons,
            List.zip_append (by simp), List.filterMap_append, List.length_append]
          have hrest := ih l hlen
          have hhead : (([t.1, t.2.1, t.2.2].zip [a, a, a]).filterMap
              (fun p => if p.2 = mi then some p.1 else none)).length
                = if a = mi then 3 else 0 := by
            by_cases ha : a = mi <;> simp [List.zip_cons_cons, List.filterMap_cons, ha]
          rw [hhead]
          by_cases ha : a = mi
          · rw [if_pos ha]; omega
          · rw [if_neg ha]; omega

/-- C3: for every produced primitive, every entry of its index buffer is
strictly below the primitive's deduplicated vertex count (which is also the
length of each of its attribute arrays), and the index buffer length is a
multiple of 3. -/
theorem claim3_index_validity (m : MeshData) (useMaterials : String)
    (hwf : m.triMaterialIdxs.length = m.loopTriangles.length)
    (p : Primitive) (hp : p ∈ extract_primitives m useMaterials) :
    (∀ i ∈ p.indices, i < p.dotsU.length) ∧ p.indices.length % 3 = 0 ∧
      ∀ f : Dot → ℚ, (p.attrArray f).length = p.dotsU.length := by
  unfold extract_primitives at hp
  rw [List.mem_filterMap] at hp
  obtain ⟨⟨mi, dotIdx⟩, hmem, hmk⟩ := hp
  obtain ⟨hU, hI, -⟩ := makePrim_eq_some hmk
  refine ⟨?_, ?_, ?_⟩
  · intro i hi
    rw [hU]
    rw [hI] at hi
    exact npUnique_snd_mem_lt _ i hi
  · have hlen : p.indices.length = dotIdx.length := by
      rw [hI, npUnique_snd_length, List.length_map]
    rw [hlen]
    unfold primIndices at hmem
    by_cases hn : useMaterials = "NONE"
    · rw [if_pos hn] at hmem
      simp only [List.mem_singleton, Prod.mk.injEq] at hmem
      rw [hmem.2, loopIndices_length]
      omega
    · rw [if_neg hn] at hmem
      simp only [List.mem_map, Prod.mk.injEq] at hmem
      obtain ⟨mi', -, -, hdi⟩ := hmem
      rw [← hdi]
      unfold bucketLoopIndices loopIndices loopMaterialIdxs
      exact bucket_length_mod3 m.loopTriangles m.triMaterialIdxs hwf.symm mi'
  · intro f
    unfold Primitive.attrArray
    rw [List.length_map]

/-- Witness for C3 at a concrete two-material mesh. -/
theorem claim3_witness :
    (MeshData.mk [[1], [0], [0], [2], [2], [3]] [(0, 1, 2), (3, 4, 5)]
        [1, 0]).triMaterialIdxs.length
      = (MeshData.mk [[1], [0], [0], [2], [2], [3]] [(0, 1, 2), (3, 4, 5)]
        [1, 0]).loopTriangles.length
    ∧ (Primitive.mk [[2], [3]] [0, 0, 1] (Int.ofNat 0) ∈
        extract_primitives
          ⟨[[1], [0], [0], [2], [2], [3]], [(0, 1, 2), (3, 4, 5)], [1, 0]⟩ "EXPORT")
    ∧ ((∀ i ∈ (Primitive.mk [[2], [3]] [0, 0, 1] (Int.ofNat 0)).indices,
          i < (Primitive.mk [[2], [3]] [0, 0, 1] (Int.ofNat 0)).dotsU.length)
        ∧ (Primitive.mk [[2], [3]] [0, 0, 1] (Int.ofNat 0)).indices.length % 3 = 0
        ∧ ∀ f : Dot → ℚ,
            ((Primitive.mk [[2], [3]] [0, 0, 1] (Int.ofNat 0)).attrArray f).length
              = (Primitive.mk [[2], [3]] [0, 0, 1] (Int.ofNat 0)).dotsU.length) :=
  ⟨by decide, by decide,
    claim3_index_validity
      ⟨[[1], [0], [0], [2], [2], [3]], [(0, 1, 2), (3, 4, 5)], [1, 0]⟩ "EXPORT"
      (by decide) _ (by decide)⟩

end GltfExtract

namespace GltfExtract

theorem loopMaterialIdxs_length (m : MeshData) :
    (loopMaterialIdxs m).length = 3 * m.triMaterialIdxs.length := by
  unfold loopMaterialIdxs
  induction m.triMaterialIdxs with
  | nil => rfl
  | cons a l ih =>
      rw [List.flatMap_cons, List.length_append, ih, List.length_cons]
      simp
      ring

theorem flatMap_bucket_cons (ks : List Nat) (hnd : ks.Nodup) (q : Nat × Nat)
    (hq : q.2 ∈ ks) (ps : List (Nat × Nat)) :
    (ks.flatMap (fun k => (q :: ps).filterMap
        (fun p => if p.2 = k then some p.1 else none))).Perm
      (q.1 :: ks.flatMap (fun k => ps.filterMap
        (fun p => if p.2 = k then some p.1 else none))) := by
  induction ks with
  | nil => cases hq
  | cons k ks ih =>
      rw [List.flatMap_cons, List.flatMap_cons]
      by_cases h : q.2 = k
      · have hnotin : q.2 ∉ ks := by rw [h]; exact (List.nodup_cons.1 hnd).1
        have hrest : ∀ k' ∈ ks, (q :: ps).filterMap
            (fun p => if p.2 = k' then some p.1 else none)
              = ps.filterMap (fun p => if p.2 = k' then some p.1 else none) := by
          intro k' hk'
          have hne : ¬ q.2 = k' := fun hc => hnotin (hc ▸ hk')
          rw [List.filterMap_cons, if_neg hne]
        rw [List.flatMap_congr hrest, List.filterMap_cons, if_pos h]
        exact List.Perm.refl _
      · have hq' : q.2 ∈ ks := by
          cases List.mem_cons.1 hq with
          | inl hc => exact absurd hc h
          | inr hm => exact hm
        rw [List.filterMap_cons, if_neg h]
        refine List.Perm.trans
          (List.Perm.append_left _ (ih (List.nodup_cons.1 hnd).2 hq')) ?_
        exact List.perm_middle

theorem partition_perm (ks : List Nat) (hnd : ks.Nodup) :
    ∀ ps : List (Nat × Nat), (∀ p ∈ ps, p.2 ∈ ks) →
      (ks.flatMap (fun k => ps.filterMap
          (fun p => if p.2 = k then some p.1 else none))).Perm
        (ps.map Prod.fst) := by
  intro ps
  induction ps with
  | nil =>
      intro _
      simp
  | cons q ps ih =>
      intro hcov
      have h1 := flatMap_bucket_cons ks hnd q (hcov q (List.mem_cons_self q ps)) ps
      have h2 := ih (fun p hp => hcov p (List.mem_cons_of_mem q hp))
      rw [List.map_cons]
      exact h1.trans (h2.cons q.1)

end GltfExtract

namespace GltfExtract

theorem bucket_ne_nil (ts : List (Nat × Nat × Nat)) (ms : List Nat)
    (h : ts.length = ms.length) (mi : Nat) (hmi : mi ∈ ms) :
    ((ts.flatMap (fun t => [t.1, t.2.1, t.2.2])).zip
        (ms.flatMap (fun i => [i, i, i]))).filterMap
      (fun p => if p.2 = mi then some p.1 else none) ≠ [] := by
  induction ts generalizing ms with
  | nil =>
      have : ms = [] := by
        cases ms with
        | nil => rfl
        | cons a l => simp at h
      subst this
      cases hmi
  | cons t ts ih =>
      cases ms with
      | nil => simp at h
      | cons a l =>
          have hlen : ts.length = l.length := by simpa using h
          rw [List.flatMap_cons, List.flatMap_cons,
            List.zip_append (by simp), List.filterMap_append]
          intro hnil
          rw [List.append_eq_nil] at hnil
          by_cases ha : a = mi
          · have : (([t.1, t.2.1, t.2.2].zip [a, a, a]).filterMap
                (fun p => if p.2 = mi then some p.1 else none)) = [t.1, t.2.1, t.2.2] := by
              simp [List.zip_cons_cons, List.filterMap_cons, ha]
            rw [this] at hnil
            exact absurd hnil.1 (by simp)
          · have hmi' : mi ∈ l := by
              cases List.mem_cons.1 hmi with
              | inl hc => exact absurd hc.symm ha
              | inr hm => exact hm
            exact ih l hlen hmi' hnil.2

theorem makePrim_of_ne_nil (dots : List Dot) (mi : Int) (dotIdx : List Nat)
    (h : dotIdx ≠ []) :
    makePrim dots mi dotIdx
      = some ⟨(npUnique (dotIdx.map (fun i => dots.getD i []))).1,
          (npUnique (dotIdx.map (fun i => dots.getD i []))).2, mi⟩ := by
  unfold makePrim
  rw [if_neg]
  intro h0
  rw [npUnique_fst_nil_iff] at h0
  exact h (List.map_eq_nil.1 h0)

theorem filterMap_congr_some {α β : Type} (f : α → Option β) (g : α → β)
    (l : List α) (h : ∀ a ∈ l, f a = some (g a)) : l.filterMap f = l.map g := by
  induction l with
  | nil => rfl
  | cons a l ih =>
      rw [List.filterMap_cons, h a (List.mem_cons_self a l), List.map_cons,
        ih (fun b hb => h b (List.mem_cons_of_mem a hb))]

/-- C4: with material export enabled, the material buckets (keyed by the
distinct material indices, visited in ascending numeric order) partition the
triangle-corner stream — their concatenation is a permutation of the full
corner stream, so every corner lands in exactly one primitive — and exactly
one primitive is produced per distinct material index, in that order. -/
theorem claim4_partition_completeness (m : MeshData) (useMaterials : String)
    (hwf : m.triMaterialIdxs.length = m.loopTriangles.length)
    (hmat : useMaterials ≠ "NONE") :
    ((uniqueMaterialIdxs m).flatMap (fun mi => bucketLoopIndices m mi)).Perm
        (loopIndices m)
    ∧ (uniqueMaterialIdxs m).Sorted (· < ·)
    ∧ (extract_primitives m useMaterials).map Primitive.material
        = (uniqueMaterialIdxs m).map Int.ofNat := by
  refine ⟨?_, sorted_npUnique _, ?_⟩
  · have hlen : (loopIndices m).length = (loopMaterialIdxs m).length := by
      rw [loopIndices_length, loopMaterialIdxs_length, hwf]
    have hcov : ∀ p ∈ (loopIndices m).zip (loopMaterialIdxs m),
        p.2 ∈ uniqueMaterialIdxs m := by
      intro p hp
      obtain ⟨a, b⟩ := p
      have h2 : b ∈ loopMaterialIdxs m := (List.of_mem_zip hp).2
      unfold loopMaterialIdxs at h2
      rw [List.mem_flatMap] at h2
      obtain ⟨i, hi, hpi⟩ := h2
      have hbi : b = i := by
        simp only [List.mem_cons, List.not_mem_nil, or_false] at hpi
        tauto
      simp only
      rw [hbi]
      exact mem_npUnique.2 hi
    have hperm := partition_perm (uniqueMaterialIdxs m) (nodup_npUnique _)
      ((loopIndices m).zip (loopMaterialIdxs m)) hcov
    rw [List.map_fst_zip _ _ (le_of_eq hlen)] at hperm
    exact hperm
  · unfold extract_primitives
    unfold primIndices
    rw [if_neg hmat, List.filterMap_map]
    have hall : ∀ mi ∈ uniqueMaterialIdxs m,
        ((fun p : Int × List Nat => makePrim m.dots p.1 p.2) ∘
          (fun mi => (Int.ofNat mi, bucketLoopIndices m mi))) mi
          = some ⟨(npUnique ((bucketLoopIndices m mi).map
              (fun i => m.dots.getD i []))).1,
            (npUnique ((bucketLoopIndices m mi).map
              (fun i => m.dots.getD i []))).2, Int.ofNat mi⟩ := by
      intro mi hmi
      have hne : bucketLoopIndices m mi ≠ [] := by
        unfold bucketLoopIndices loopIndices loopMaterialIdxs
        exact bucket_ne_nil m.loopTriangles m.triMaterialIdxs hwf.symm mi
          (mem_npUnique.1 hmi)
      exact makePrim_of_ne_nil m.dots (Int.ofNat mi) (bucketLoopIndices m mi) hne
    rw [filterMap_congr_some _ _ _ hall, List.map_map]
    rfl

/-- Witness for C4 at a concrete two-material mesh. -/
theorem claim4_witness :
    (MeshData.mk [[1], [0], [0], [2], [2], [3]] [(0, 1, 2), (3, 4, 5)]
        [1, 0]).triMaterialIdxs.length
      = (MeshData.mk [[1], [0], [0], [2], [2], [3]] [(0, 1, 2), (3, 4, 5)]
        [1, 0]).loopTriangles.length
    ∧ ("EXPORT" : String) ≠ "NONE"
    ∧ (((uniqueMaterialIdxs ⟨[[1], [0], [0], [2], [2], [3]],
          [(0, 1, 2), (3, 4, 5)], [1, 0]⟩).flatMap
            (fun mi => bucketLoopIndices ⟨[[1], [0], [0], [2], [2], [3]],
              [(0, 1, 2), (3, 4, 5)], [1, 0]⟩ mi)).Perm
          (loopIndices ⟨[[1], [0], [0], [2], [2], [3]],
            [(0, 1, 2), (3, 4, 5)], [1, 0]⟩)
        ∧ (uniqueMaterialIdxs ⟨[[1], [0], [0], [2], [2], [3]],
            [(0, 1, 2), (3, 4, 5)], [1, 0]⟩).Sorted (· < ·)
        ∧ (extract_primitives ⟨[[1], [0], [0], [2], [2], [3]],
              [(0, 1, 2), (3, 4, 5)], [1, 0]⟩ "EXPORT").map Primitive.material
            = (uniqueMaterialIdxs ⟨[[1], [0], [0], [2], [2], [3]],
                [(0, 1, 2), (3, 4, 5)], [1, 0]⟩).map Int.ofNat) :=
  ⟨by decide, by decide,
    claim4_partition_completeness
      ⟨[[1], [0], [0], [2], [2], [3]], [(0, 1, 2), (3, 4, 5)], [1, 0]⟩ "EXPORT"
      (by decide) (by decide)⟩

end GltfExtract

namespace GltfExtract

/-- C9: a mesh with zero vertices or zero triangles (no loop triangles, hence
no corner records and no per-triangle materials) yields a zero-length
primitive list, in both material modes, and the pipeline is a total function
(no error path exists in the model); moreover a bucket with zero corners
produces no primitive (`if len(prim_dots) == 0: continue`). -/
theorem claim9_empty_mesh (m : MeshData) (useMaterials : String)
    (htri : m.loopTriangles = [])
    (hwf : m.triMaterialIdxs.length = m.loopTriangles.length) :
    extract_primitives m useMaterials = []
      ∧ ∀ (dots : List Dot) (mi : Int), makePrim dots mi [] = none := by
  have hms : m.triMaterialIdxs = [] := by
    rw [htri] at hwf
    exact List.length_eq_zero.1 hwf
  constructor
  · unfold extract_primitives primIndices
    by_cases hn : useMaterials = "NONE"
    · rw [if_pos hn]
      have hli : loopIndices m = [] := by
        unfold loopIndices
        rw [htri]
        rfl
      simp only [List.filterMap_cons, List.filterMap_nil, hli]
      have : makePrim m.dots (-1) [] = none := by rfl
      rw [this]
    · rw [if_neg hn]
      have hu : uniqueMaterialIdxs m = [] := by
        unfold uniqueMaterialIdxs
        rw [hms]
        rfl
      rw [hu]
      rfl
  · intro dots mi
    rfl

/-- Witness for C9 at the concrete empty mesh. -/
theorem claim9_witness :
    (MeshData.mk [] [] []).loopTriangles = []
    ∧ (MeshData.mk [] [] []).triMaterialIdxs.length
        = (MeshData.mk [] [] []).loopTriangles.length
    ∧ (extract_primitives ⟨[], [], []⟩ "EXPORT" = []
        ∧ ∀ (dots : List Dot) (mi : Int), makePrim dots mi [] = none) :=
  ⟨by decide, by decide, claim9_empty_mesh ⟨[], [], []⟩ "EXPORT" rfl rfl⟩

/-- C7: the Z-up to Y-up conversion `x,y,z -> x,z,-y` (`__zup2yup`), followed
by the same conversion applied with inverse semantics, returns the original
Z-up coordinates of every 3-vector — and so does the array form. -/
theorem claim7_axis_remap_involution :
    (∀ v : Vec3, yup2zup (zup2yup v) = v)
      ∧ ∀ vs : List Vec3, (zup2yupAll vs).map yup2zup = vs := by
  constructor
  · intro v
    cases v with
    | mk x y z =>
        unfold zup2yup yup2zup
        simp
  · intro vs
    unfold zup2yupAll
    rw [List.map_map]
    have h : yup2zup ∘ zup2yup = id := by
      funext v
      cases v with
      | mk x y z =>
          unfold zup2yup yup2zup
          simp
    rw [h, List.map_id]

end GltfExtract

namespace GltfExtract

/-- `__get_bitangent_signs`: the per-loop `bitangent_sign` array, negated
wholesale when an armature re-basing transform is present and the rotational
part of `armature.matrix_world.inverted() @ blender_object.matrix_world` —
the matrix obtained from the quaternion of the linear block
(`apply_matrix.to_quaternion().to_matrix()`, computed by the external
`mathutils` library and passed in here as `tangentTransform`) — has negative
determinant.  The function receives the export settings (with their Y-up
flag, `yupConversion`) but never consults them: there is no Z-up to Y-up
change for signs. -/
def get_bitangent_signs (armaturePresent : Bool) (tangentTransform : Mat3)
    (yupConversion : Bool) (signs : List ℚ) : List ℚ :=
  if armaturePresent then
    if tangentTransform.det < 0 then signs.map (fun s => -s) else signs
  else signs

/-- C6: with an armature re-basing transform supplied, every corner's
bitangent sign is multiplied by −1 exactly when the matrix obtained from the
quaternion of the transform's linear block has negative determinant, and left
unchanged otherwise; and the output is the same whether or not the Y-up
conversion is requested (the remap never touches the signs). -/
theorem claim6_bitangent_sign_flip (tangentTransform : Mat3)
    (yupConversion : Bool) (signs : List ℚ) (i : ℕ) (hi : i < signs.length) :
    (get_bitangent_signs true tangentTransform yupConversion signs).getD i 0
        = (if tangentTransform.det < 0 then -(signs.getD i 0) else signs.getD i 0)
    ∧ ∀ y y' : Bool, get_bitangent_signs true tangentTransform y signs
        = get_bitangent_signs true tangentTransform y' signs := by
  constructor
  · unfold get_bitangent_signs
    rw [if_pos rfl]
    by_cases hdet : tangentTransform.det < 0
    · rw [if_pos hdet, if_pos hdet, List.getD_eq_getElem _ _ (by simpa),
        List.getElem_map, List.getD_eq_getElem _ _ hi]
    · rw [if_neg hdet, if_neg hdet]
  · intro y y'
    rfl

/-- Witness for C6 at a mirrored (negative-determinant) rotation-like matrix
and a concrete sign array. -/
theorem claim6_witness :
    (0 : ℕ) < ([1, -1] : List ℚ).length
    ∧ ((get_bitangent_signs true
          ⟨⟨-1, 0, 0⟩, ⟨0, 1, 0⟩, ⟨0, 0, 1⟩⟩ true [1, -1]).getD 0 0
        = (if (Mat3.mk ⟨-1, 0, 0⟩ ⟨0, 1, 0⟩ ⟨0, 0, 1⟩).det < 0
            then -(([1, -1] : List ℚ).getD 0 0) else ([1, -1] : List ℚ).getD 0 0)
      ∧ ∀ y y' : Bool, get_bitangent_signs true
            ⟨⟨-1, 0, 0⟩, ⟨0, 1, 0⟩, ⟨0, 0, 1⟩⟩ y [1, -1]
          = get_bitangent_signs true ⟨⟨-1, 0, 0⟩, ⟨0, 1, 0⟩, ⟨0, 0, 1⟩⟩ y' [1, -1]) :=
  ⟨by decide,
    claim6_bitangent_sign_flip ⟨⟨-1, 0, 0⟩, ⟨0, 1, 0⟩, ⟨0, 0, 1⟩⟩ true [1, -1] 0
      (by decide)⟩

end GltfExtract

namespace GltfExtract

/-- One RGBA corner color (a row of the per-loop `color` array). -/
structure Color where
  r : ℚ
  g : ℚ
  b : ℚ
  a : ℚ
deriving DecidableEq, Repr

/-- The per-channel sRGB→linear step of `__get_colors`, written exactly as the
vectorised numpy code computes it: `not_small = rgb >= 0.04045`,
`small_result = np.where(rgb < 0.0, 0.0, rgb * (1.0 / 12.92))`,
`large_result = np.power((rgb + 0.055) * (1.0 / 1.055), 2.4, where=not_small)`
(the exponentiation, an external numpy routine over floats, enters as the
function parameter `pow24`), then `np.where(not_small, large_result,
small_result)`. -/
def srgbToLinearChannel (pow24 : ℚ → ℚ) (c : ℚ) : ℚ :=
  let notSmall := c ≥ 809 / 20000
  let smallResult := if c < 0 then 0 else c * (1 / (323 / 25))
  let largeResult := pow24 ((c + 11 / 200) * (1 / (211 / 200)))
  if notSmall then largeResult else smallResult

/-- `__get_colors`: per-loop RGBA colors with R, G, B converted sRGB→linear
and alpha untouched (the conversion writes only `colors[:, :-1]`). -/
def get_colors (pow24 : ℚ → ℚ) (colors : List Color) : List Color :=
  colors.map (fun c =>
    ⟨srgbToLinearChannel pow24 c.r, srgbToLinearChannel pow24 c.g,
      srgbToLinearChannel pow24 c.b, c.a⟩)

/-- `__get_uvs`: per-loop UVs moved from Blender UV space to glTF UV space by
`uvs[:, 1] *= -1` followed by `uvs[:, 1] += 1`. -/
def get_uvs (uvs : List (ℚ × ℚ)) : List (ℚ × ℚ) :=
  let step1 := uvs.map (fun p => (p.1, p.2 * (-1)))
  step1.map (fun p => (p.1, p.2 + 1))

theorem getD_map_lt {α β : Type} (f : α → β) (l : List α) (i : ℕ)
    (h : i < l.length) (d : α) (d' : β) :
    (l.map f).getD i d' = f (l.getD i d) := by
  rw [List.getD_eq_getElem _ _ (by simpa), List.getElem_map,
    List.getD_eq_getElem _ _ h]

theorem srgbToLinearChannel_cases (pow24 : ℚ → ℚ) (c : ℚ) :
    srgbToLinearChannel pow24 c
      = if c < 0 then 0
        else if c < 809 / 20000 then c / (323 / 25)
        else pow24 ((c + 11 / 200) / (211 / 200)) := by
  unfold srgbToLinearChannel
  by_cases h1 : c ≥ 809 / 20000
  · have h2 : ¬ c < 0 := by
      intro hc
      have : (0 : ℚ) < 809 / 20000 := by norm_num
      linarith
    have h3 : ¬ c < 809 / 20000 := not_lt.2 h1
    rw [if_pos h1, if_neg h2, if_neg h3]
    congr 1
    ring
  · rw [if_neg h1]
    by_cases h2 : c < 0
    · rw [if_pos h2, if_pos h2]
    · have h3 : c < 809 / 20000 := lt_of_not_ge h1
      rw [if_neg h2, if_neg h2, if_pos h3]
      ring

/-- C10: for every corner, the exported COLOR record has its R, G, B channels
converted sRGB→linear — a channel below 0 is clamped to 0, a nonnegative
channel below 0.04045 is divided by 12.92, a channel at or above 0.04045 is
mapped through the external 2.4-power of `(c + 0.055) / 1.055` — while the
alpha channel passes through unchanged; and the exported TEXCOORD V
coordinate is `1 − v` with U unchanged. -/
theorem claim10_color_uv_conversion (pow24 : ℚ → ℚ) (colors : List Color)
    (uvs : List (ℚ × ℚ)) (i : ℕ) (hc : i < colors.length) (hu : i < uvs.length) :
    ((get_colors pow24 colors).getD i ⟨0, 0, 0, 0⟩
        = ⟨(if (colors.getD i ⟨0, 0, 0, 0⟩).r < 0 then 0
            else if (colors.getD i ⟨0, 0, 0, 0⟩).r < 809 / 20000
            then (colors.getD i ⟨0, 0, 0, 0⟩).r / (323 / 25)
            else pow24 (((colors.getD i ⟨0, 0, 0, 0⟩).r + 11 / 200) / (211 / 200))),
          (if (colors.getD i ⟨0, 0, 0, 0⟩).g < 0 then 0
            else if (colors.getD i ⟨0, 0, 0, 0⟩).g < 809 / 20000
            then (colors.getD i ⟨0, 0, 0, 0⟩).g / (323 / 25)
            else pow24 (((colors.getD i ⟨0, 0, 0, 0⟩).g + 11 / 200) / (211 / 200))),
          (if (colors.getD i ⟨0, 0, 0, 0⟩).b < 0 then 0
            else if (colors.getD i ⟨0, 0, 0, 0⟩).b < 809 / 20000
            then (colors.getD i ⟨0, 0, 0, 0⟩).b / (323 / 25)
            else pow24 (((colors.getD i ⟨0, 0, 0, 0⟩).b + 11 / 200) / (211 / 200))),
          (colors.getD i ⟨0, 0, 0, 0⟩).a⟩)
    ∧ (get_uvs uvs).getD i (0, 0)
        = ((uvs.getD i (0, 0)).1, 1 - (uvs.getD i (0, 0)).2) := by
  constructor
  · unfold get_colors
    rw [getD_map_lt _ _ _ hc ⟨0, 0, 0, 0⟩]
    rw [srgbToLinearChannel_cases, srgbToLinearChannel_cases,
      srgbToLinearChannel_cases]
  · unfold get_uvs
    simp only
    rw [List.map_map, getD_map_lt _ _ _ hu (0, 0)]
    simp only [Function.comp]
    have : (uvs.getD i (0, 0)).2 * (-1) + 1 = 1 - (uvs.getD i (0, 0)).2 := by ring
    rw [this]

/-- Witness for C10 at a concrete color (one channel per branch) and UV pair,
with the external 2.4-power instantiated by an arbitrary concrete function. -/
theorem claim10_witness :
    (0 : ℕ) < ([⟨-1/2, 1/100, 1/2, 3/4⟩] : List Color).length
    ∧ (0 : ℕ) < ([(1/4, 1/3)] : List (ℚ × ℚ)).length
    ∧ (((get_colors (fun x => x) [⟨-1/2, 1/100, 1/2, 3/4⟩]).getD 0 ⟨0, 0, 0, 0⟩
        = ⟨(if ((([⟨-1/2, 1/100, 1/2, 3/4⟩] : List Color).getD 0 ⟨0, 0, 0, 0⟩).r) < 0 then 0
            else if ((([⟨-1/2, 1/100, 1/2, 3/4⟩] : List Color).getD 0 ⟨0, 0, 0, 0⟩).r) < 809 / 20000
            then ((([⟨-1/2, 1/100, 1/2, 3/4⟩] : List Color).getD 0 ⟨0, 0, 0, 0⟩).r) / (323 / 25)
            else (fun x => x) (((([⟨-1/2, 1/100, 1/2, 3/4⟩] : List Color).getD 0 ⟨0, 0, 0, 0⟩).r + 11 / 200) / (211 / 200))),
          (if ((([⟨-1/2, 1/100, 1/2, 3/4⟩] : List Color).getD 0 ⟨0, 0, 0, 0⟩).g) < 0 then 0
            else if ((([⟨-1/2, 1/100, 1/2, 3/4⟩] : List Color).getD 0 ⟨0, 0, 0, 0⟩).g) < 809 / 20000
            then ((([⟨-1/2, 1/100, 1/2, 3/4⟩] : List Color).getD 0 ⟨0, 0, 0, 0⟩).g) / (323 / 25)
            else (fun x => x) (((([⟨-1/2, 1/100, 1/2, 3/4⟩] : List Color).getD 0 ⟨0, 0, 0, 0⟩).g + 11 / 200) / (211 / 200))),
          (if ((([⟨-1/2, 1/100, 1/2, 3/4⟩] : List Color).getD 0 ⟨0, 0, 0, 0⟩).b) < 0 then 0
            else if ((([⟨-1/2, 1/100, 1/2, 3/4⟩] : List Color).getD 0 ⟨0, 0, 0, 0⟩).b) < 809 / 20000
            then ((([⟨-1/2, 1/100, 1/2, 3/4⟩] : List Color).getD 0 ⟨0, 0, 0, 0⟩).b) / (323 / 25)
            else (fun x => x) (((([⟨-1/2, 1/100, 1/2, 3/4⟩] : List Color).getD 0 ⟨0, 0, 0, 0⟩).b + 11 / 200) / (211 / 200))),
          (([⟨-1/2, 1/100, 1/2, 3/4⟩] : List Color).getD 0 ⟨0, 0, 0, 0⟩).a⟩)
      ∧ (get_uvs [(1/4, 1/3)]).getD 0 (0, 0)
          = ((([(1/4, 1/3)] : List (ℚ × ℚ)).getD 0 (0, 0)).1,
              1 - (([(1/4, 1/3)] : List (ℚ × ℚ)).getD 0 (0, 0)).2)) :=
  ⟨by decide, by decide,
    claim10_color_uv_conversion (fun x => x) [⟨-1/2, 1/100, 1/2, 3/4⟩]
      [(1/4, 1/3)] 0 (by decide) (by decide)⟩

end GltfExtract

namespace GltfExtract

/-- The influence-collection loop body of `__get_bone_data`: for one vertex,
keep each group element `(group, weight)` with `weight > 0.0` (the code skips
`weight <= 0.0`) whose group resolves through `group_to_joint` to a joint
(an out-of-range group index — the caught `IndexError` — or a `None` joint is
skipped), producing `(joint, weight)` pairs. -/
def bonesFiltered (groupToJoint : List (Option Nat))
    (vgroups : List (Nat × ℚ)) : List (Nat × ℚ) :=
  vgroups.filterMap (fun ge =>
    if ge.2 ≤ (0 : ℚ) then none
    else
      match groupToJoint.get? ge.1 with
      | some (some j) => some (j, ge.2)
      | _ => none)

/-- One vertex's bone list in `__get_bone_data`: the filtered influences
sorted descending by weight (Python's stable `sort` with
`key=lambda x: x[1], reverse=True`), and the synthetic `((0, 1.0),)` HACK
when nothing remains. -/
def vertBonesOne (groupToJoint : List (Option Nat))
    (vgroups : List (Nat × ℚ)) : List (Nat × ℚ) :=
  if (List.insertionSort (fun a b : Nat × ℚ => b.2 ≤ a.2)
      (bonesFiltered groupToJoint vgroups)).isEmpty
  then [(0, 1)]
  else List.insertionSort (fun a b : Nat × ℚ => b.2 ≤ a.2)
    (bonesFiltered groupToJoint vgroups)

/-- `__get_bone_data`: the per-vertex bone lists and
`num_joint_sets = (max_num_influences + 3) // 4`. -/
def get_bone_data (groupToJoint : List (Option Nat))
    (vertGroups : List (List (Nat × ℚ))) : List (List (Nat × ℚ)) × Nat :=
  let vertBones := vertGroups.map (vertBonesOne groupToJoint)
  let maxNumInfluences := vertBones.foldl (fun acc b => max acc b.length) 0
  (vertBones, (maxNumInfluences + 3) / 4)

/-- The inner packing loop of `extract_primitives` for one deduplicated
vertex: for `j in range(0, 4 * num_joint_sets)`, emit `bones[j]` when it
exists and the padding `(0, 0.0)` otherwise.  Entry `j` lands in
`JOINTS_{j // 4}` / `WEIGHTS_{j // 4}` of the primitive. -/
def packSkinVert (numJointSets : Nat) (bones : List (Nat × ℚ)) :
    List (Nat × ℚ) :=
  (List.range (4 * numJointSets)).map (fun j => bones.getD j (0, 0))

/-- All `(joint, weight)` entries emitted for a primitive's skin attributes,
vertex-major (`for vi in blender_idxs`), each vertex contributing its
`4 * num_joint_sets` packed entries. -/
def packSkin (vertBones : List (List (Nat × ℚ))) (numJointSets : Nat)
    (blenderIdxs : List Nat) : List (Nat × ℚ) :=
  blenderIdxs.flatMap (fun vi => packSkinVert numJointSets (vertBones.getD vi []))

theorem vertBonesOne_weights_nonneg (gj : List (Option Nat))
    (gs : List (Nat × ℚ)) : ∀ e ∈ vertBonesOne gj gs, 0 ≤ e.2 := by
  intro e he
  unfold vertBonesOne at he
  by_cases hemp : (List.insertionSort (fun a b : Nat × ℚ => b.2 ≤ a.2)
      (bonesFiltered gj gs)).isEmpty
  · rw [if_pos hemp] at he
    simp only [List.mem_singleton] at he
    subst he
    norm_num
  · rw [if_neg hemp] at he
    have hmem : e ∈ bonesFiltered gj gs :=
      (List.perm_insertionSort _ _).mem_iff.1 he
    unfold bonesFiltered at hmem
    rw [List.mem_filterMap] at hmem
    obtain ⟨ge, -, hsome⟩ := hmem
    by_cases hw : ge.2 ≤ 0
    · rw [if_pos hw] at hsome
      cases hsome
    · rw [if_neg hw] at hsome
      rcases h2 : gj.get? ge.1 with - | oj
      · rw [h2] at hsome
        cases hsome
      · rcases oj with - | j
        · rw [h2] at hsome
          cases hsome
        · rw [h2] at hsome
          have : (j, ge.2) = e := by
            simpa using hsome
          rw [← this]
          simp only
          linarith [lt_of_not_ge (fun hc => hw hc)]

theorem vertBonesOne_ne_nil (gj : List (Option Nat)) (gs : List (Nat × ℚ)) :
    vertBonesOne gj gs ≠ [] := by
  unfold vertBonesOne
  by_cases hemp : (List.insertionSort (fun a b : Nat × ℚ => b.2 ≤ a.2)
      (bonesFiltered gj gs)).isEmpty
  · rw [if_pos hemp]
    simp
  · rw [if_neg hemp]
    intro hc
    rw [hc] at hemp
    exact hemp rfl

/-- C5: after skin-weight packing, every vertex's influence list is
non-empty; a vertex whose filtered influence list is empty (no positive
weight mapped to a joint) gets exactly the synthetic single influence
`(joint 0, weight 1.0)`; every emitted `(joint, weight)` entry — real,
synthetic, or the `(0, 0.0)` padding past a vertex's own list — has
weight ≥ 0. -/
theorem claim5_weight_normalization (groupToJoint : List (Option Nat))
    (vertGroups : List (List (Nat × ℚ))) (blenderIdxs : List Nat) (i : ℕ)
    (hi : i < vertGroups.length) :
    (get_bone_data groupToJoint vertGroups).1.getD i [] ≠ []
    ∧ (bonesFiltered groupToJoint (vertGroups.getD i []) = []
        → (get_bone_data groupToJoint vertGroups).1.getD i [] = [(0, 1)])
    ∧ (∀ e ∈ packSkin (get_bone_data groupToJoint vertGroups).1
          (get_bone_data groupToJoint vertGroups).2 blenderIdxs, 0 ≤ e.2)
    ∧ ∀ (vi j : ℕ),
        ((get_bone_data groupToJoint vertGroups).1.getD vi []).length ≤ j →
          ((get_bone_data groupToJoint vertGroups).1.getD vi []).getD j (0, 0)
            = (0, 0) := by
  have hvb : (get_bone_data groupToJoint vertGroups).1
      = vertGroups.map (vertBonesOne groupToJoint) := rfl
  refine ⟨?_, ?_, ?_, ?_⟩
  · rw [hvb, getD_map_lt _ _ _ hi []]
    exact vertBonesOne_ne_nil _ _
  · intro hflt
    rw [hvb, getD_map_lt _ _ _ hi []]
    unfold vertBonesOne
    rw [hflt]
    rfl
  · intro e he
    unfold packSkin at he
    rw [List.mem_flatMap] at he
    obtain ⟨vi, -, hpk⟩ := he
    unfold packSkinVert at hpk
    rw [List.mem_map] at hpk
    obtain ⟨j, -, hj⟩ := hpk
    by_cases hjl : j < ((get_bone_data groupToJoint vertGroups).1.getD vi []).length
    · have hmem : ((get_bone_data groupToJoint vertGroups).1.getD vi []).getD
          j (0, 0) ∈ (get_bone_data groupToJoint vertGroups).1.getD vi [] := by
        rw [List.getD_eq_getElem _ _ hjl]
        exact List.getElem_mem hjl
      rw [← hj]
      by_cases hvi : vi < vertGroups.length
      · rw [hvb, getD_map_lt _ _ _ hvi []] at hmem ⊢
        exact vertBonesOne_weights_nonneg _ _ _ hmem
      · rw [hvb] at hmem
        rw [List.getD_eq_default] at hmem
        · cases hmem
        · rw [List.length_map]
          omega
    · rw [← hj, List.getD_eq_default _ _ (le_of_not_lt hjl)]
  · intro vi j hj
    exact List.getD_eq_default _ _ hj

/-- Witness for C5: one vertex with only a zero-weight influence gets the
synthetic `(0, 1)`; all packed entries of the concrete primitive are
nonnegative. -/
theorem claim5_witness :
    (0 : ℕ) < ([[(0, 0)], [(0, 1/2), (1, 1/4)]] : List (List (Nat × ℚ))).length
    ∧ ((get_bone_data [some 0, some 1]
          [[(0, 0)], [(0, 1/2), (1, 1/4)]]).1.getD 0 [] ≠ []
      ∧ (bonesFiltered [some 0, some 1]
            (([[(0, 0)], [(0, 1/2), (1, 1/4)]] :
              List (List (Nat × ℚ))).getD 0 []) = []
          → (get_bone_data [some 0, some 1]
              [[(0, 0)], [(0, 1/2), (1, 1/4)]]).1.getD 0 [] = [(0, 1)])
      ∧ (∀ e ∈ packSkin (get_bone_data [some 0, some 1]
            [[(0, 0)], [(0, 1/2), (1, 1/4)]]).1
            (get_bone_data [some 0, some 1]
              [[(0, 0)], [(0, 1/2), (1, 1/4)]]).2 [0, 1], 0 ≤ e.2)
      ∧ ∀ (vi j : ℕ),
          ((get_bone_data [some 0, some 1]
              [[(0, 0)], [(0, 1/2), (1, 1/4)]]).1.getD vi []).length ≤ j →
            ((get_bone_data [some 0, some 1]
                [[(0, 0)], [(0, 1/2), (1, 1/4)]]).1.getD vi []).getD j (0, 0)
              = (0, 0)) :=
  ⟨by decide,
    claim5_weight_normalization [some 0, some 1]
      [[(0, 0)], [(0, 1/2), (1, 1/4)]] [0, 1] 0 (by decide)⟩

end GltfExtract

/-- A 4×4 affine `mathutils` matrix as used by `__apply_mat_to_all`: its 3×3
linear block and its translation column. -/
structure Mat4 where
  linear : Mat3
  translation : Vec3
deriving DecidableEq, Repr

/-- `__apply_mat_to_all` with a 4×4 matrix: linear part, then translation. -/
def applyMat4All (m : Mat4) (vs : List Vec3) : List Vec3 :=
  vs.map (fun v => (m.linear.mulVec v).add m.translation)

/-- `__apply_mat_to_all` with a 3×3 matrix: linear part only. -/
def applyMat3All (m : Mat3) (vs : List Vec3) : List Vec3 :=
  vs.map m.mulVec

/-- One row of `__normalize_vecs`: divide by the Euclidean norm
(`np.linalg.norm`, an external float routine supplied as `nrm`) unless the
norm is zero (`where=norms != 0` leaves such rows untouched). -/
def normalizeVec (nrm : Vec3 → ℚ) (v : Vec3) : Vec3 :=
  if nrm v = 0 then v else ⟨v.x / nrm v, v.y / nrm v, v.z / nrm v⟩

/-- `__normalize_vecs` over the whole array. -/
def normalizeVecs (nrm : Vec3 → ℚ) (vs : List Vec3) : List Vec3 :=
  vs.map (normalizeVec nrm)

/-- The zero-normal guard of `__get_normals`:
`is_zero = ~ns.any(axis=1); ns[is_zero, 2] = 1` — a fully zero row gets its
z set to 1, i.e. becomes the canonical up vector. -/
def zeroFix (v : Vec3) : Vec3 := if v = ⟨0, 0, 0⟩ then ⟨0, 0, 1⟩ else v

namespace GltfExtract

/-- `__get_positions` after the raw fetch: optional affine re-basing of base
and morph positions (`loc_transform = blender_object.matrix_world`), then the
morph arrays are turned into deltas (`vs -= locs`), then the optional Z-up to
Y-up remap of both — in exactly the source's order. -/
def get_positions (armaturePresent : Bool) (locTransform : Mat4) (yup : Bool)
    (locs : List Vec3) (morphLocs : List (List Vec3)) :
    List Vec3 × List (List Vec3) :=
  let locs1 := if armaturePresent then applyMat4All locTransform locs else locs
  let morph1 := if armaturePresent
    then morphLocs.map (applyMat4All locTransform) else morphLocs
  let morph2 := morph1.map (fun vs => vs.zipWith Vec3.sub locs1)
  let locs2 := if yup then zup2yupAll locs1 else locs1
  let morph3 := if yup then morph2.map zup2yupAll else morph2
  (locs2, morph3)

/-- `__get_normals` after the raw fetch: optional linear re-basing by the
inverse-transpose-derived `normal_transform` (computed by `mathutils`, passed
in) with renormalisation, the zero-normal guard on base and morph arrays,
then deltas (`ns -= normals`), then the optional Z-up to Y-up remap — in
exactly the source's order. -/
def get_normals (armaturePresent : Bool) (normalTransform : Mat3)
    (nrm : Vec3 → ℚ) (yup : Bool) (normals : List Vec3)
    (morphNormals : List (List Vec3)) : List Vec3 × List (List Vec3) :=
  let n1 := if armaturePresent
    then normalizeVecs nrm (applyMat3All normalTransform normals) else normals
  let m1 := if armaturePresent
    then morphNormals.map
      (fun ns => normalizeVecs nrm (applyMat3All normalTransform ns))
    else morphNormals
  let n2 := n1.map zeroFix
  let m2 := m1.map (fun ns => ns.map zeroFix)
  let m3 := m2.map (fun ns => ns.zipWith Vec3.sub n2)
  let n3 := if yup then zup2yupAll n2 else n2
  let m4 := if yup then m3.map zup2yupAll else m3
  (n3, m4)

/-- The remap step as a single-vector function: `__zup2yup` when the Y-up
conversion is requested, identity otherwise. -/
def yupApply (yup : Bool) (v : Vec3) : Vec3 := if yup then zup2yup v else v

/-- The per-vertex position transform: the affine re-basing when an armature
is present, identity otherwise. -/
def posTransform (armaturePresent : Bool) (m : Mat4) (v : Vec3) : Vec3 :=
  if armaturePresent then (m.linear.mulVec v).add m.translation else v

/-- The per-corner normal transform: linear re-basing and renormalisation
when an armature is present, then the zero-normal guard. -/
def normalStep (armaturePresent : Bool) (n : Mat3) (nrm : Vec3 → ℚ)
    (v : Vec3) : Vec3 :=
  zeroFix (if armaturePresent then normalizeVec nrm (n.mulVec v) else v)

end GltfExtract

namespace GltfExtract

theorem yupApply_false_eq : yupApply false = fun v => v := rfl

theorem yupApply_true_eq : yupApply true = zup2yup := rfl

theorem get_positions_eq (arm : Bool) (M : Mat4) (yup : Bool)
    (locs : List Vec3) (morphLocs : List (List Vec3)) :
    get_positions arm M yup locs morphLocs
      = (locs.map (fun v => yupApply yup (posTransform arm M v)),
         morphLocs.map (fun vs =>
           ((vs.map (posTransform arm M)).zipWith Vec3.sub
             (locs.map (posTransform arm M))).map (yupApply yup))) := by
  simp only [get_positions]
  cases arm <;> cases yup <;>
    simp [applyMat4All, zup2yupAll, posTransform, yupApply_false_eq,
      yupApply_true_eq, List.map_map, Function.comp]

theorem get_normals_eq (arm : Bool) (N : Mat3) (nrm : Vec3 → ℚ) (yup : Bool)
    (normals : List Vec3) (morphNormals : List (List Vec3)) :
    get_normals arm N nrm yup normals morphNormals
      = (normals.map (fun v => yupApply yup (normalStep arm N nrm v)),
         morphNormals.map (fun ns =>
           ((ns.map (normalStep arm N nrm)).zipWith Vec3.sub
             (normals.map (normalStep arm N nrm))).map (yupApply yup))) := by
  simp only [get_normals]
  cases arm <;> cases yup <;>
    simp [normalizeVecs, applyMat3All, zup2yupAll, normalStep,
      yupApply_false_eq, yupApply_true_eq, List.map_map, Function.comp]

theorem get_positions_fst (arm : Bool) (M : Mat4) (yup : Bool)
    (locs : List Vec3) (morphLocs : List (List Vec3)) :
    (get_positions arm M yup locs morphLocs).1
      = locs.map (fun v => yupApply yup (posTransform arm M v)) := by
  rw [get_positions_eq]

theorem get_positions_snd (arm : Bool) (M : Mat4) (yup : Bool)
    (locs : List Vec3) (morphLocs : List (List Vec3)) :
    (get_positions arm M yup locs morphLocs).2
      = morphLocs.map (fun vs =>
          ((vs.map (posTransform arm M)).zipWith Vec3.sub
            (locs.map (posTransform arm M))).map (yupApply yup)) := by
  rw [get_positions_eq]

theorem get_normals_fst (arm : Bool) (N : Mat3) (nrm : Vec3 → ℚ) (yup : Bool)
    (normals : List Vec3) (morphNormals : List (List Vec3)) :
    (get_normals arm N nrm yup normals morphNormals).1
      = normals.map (fun v => yupApply yup (normalStep arm N nrm v)) := by
  rw [get_normals_eq]

theorem get_normals_snd (arm : Bool) (N : Mat3) (nrm : Vec3 → ℚ) (yup : Bool)
    (normals : List Vec3) (morphNormals : List (List Vec3)) :
    (get_normals arm N nrm yup normals morphNormals).2
      = morphNormals.map (fun ns =>
          ((ns.map (normalStep arm N nrm)).zipWith Vec3.sub
            (normals.map (normalStep arm N nrm))).map (yupApply yup)) := by
  rw [get_normals_eq]

theorem getD_zipWith_lt {α β γ : Type} (f : α → β → γ) (as : List α)
    (bs : List β) (i : ℕ) (ha : i < as.length) (hb : i < bs.length)
    (da : α) (db : β) (d : γ) :
    (List.zipWith f as bs).getD i d = f (as.getD i da) (bs.getD i db) := by
  rw [List.getD_eq_getElem _ _ (by rw [List.length_zipWith]; exact lt_min ha hb),
    List.getElem_zipWith, List.getD_eq_getElem _ _ ha,
    List.getD_eq_getElem _ _ hb]

theorem yupApply_add_sub (yup : Bool) (b m : Vec3) :
    (yupApply yup b).add (yupApply yup (m.sub b)) = yupApply yup m := by
  cases yup
  · simp only [yupApply_false_eq]
    cases b
    cases m
    simp only [Vec3.add, Vec3.sub, Vec3.mk.injEq]
    refine ⟨by ring, by ring, by ring⟩
  · simp only [yupApply_true_eq]
    cases b
    cases m
    simp only [zup2yup, Vec3.add, Vec3.sub, Vec3.mk.injEq]
    refine ⟨by ring, by ring, by ring⟩

/-- C8: for every vertex and morph target (positions), and every corner and
morph target (normals), the produced base value plus the produced morph delta
equals the fully transformed morphed value — i.e. the delta is taken after
the armature re-basing (positions: affine, normals: linear + renormalisation
+ zero-guard) and is mapped through the Y-up remap together with the base, so
the identity holds under the Y-up remap too. -/
theorem claim8_morph_delta_roundtrip (armaturePresent : Bool)
    (locTransform : Mat4) (normalTransform : Mat3) (nrm : Vec3 → ℚ)
    (yup : Bool) (locs : List Vec3) (morphLocs : List (List Vec3))
    (normals : List Vec3) (morphNormals : List (List Vec3))
    (k i kn j : ℕ)
    (hk : k < morphLocs.length) (hi : i < locs.length)
    (hlen : (morphLocs.getD k []).length = locs.length)
    (hkn : kn < morphNormals.length) (hj : j < normals.length)
    (hlenN : (morphNormals.getD kn []).length = normals.length) :
    ((get_positions armaturePresent locTransform yup locs morphLocs).1.getD
          i ⟨0, 0, 0⟩).add
        (((get_positions armaturePresent locTransform yup locs
          morphLocs).2.getD k []).getD i ⟨0, 0, 0⟩)
      = yupApply yup (posTransform armaturePresent locTransform
          ((morphLocs.getD k []).getD i ⟨0, 0, 0⟩))
    ∧ ((get_normals armaturePresent normalTransform nrm yup normals
          morphNormals).1.getD j ⟨0, 0, 0⟩).add
        (((get_normals armaturePresent normalTransform nrm yup normals
          morphNormals).2.getD kn []).getD j ⟨0, 0, 0⟩)
      = yupApply yup (normalStep armaturePresent normalTransform nrm
          ((morphNormals.getD kn []).getD j ⟨0, 0, 0⟩)) := by
  constructor
  · have h1 : (get_positions armaturePresent locTransform yup locs
        morphLocs).1.getD i ⟨0, 0, 0⟩
        = yupApply yup (posTransform armaturePresent locTransform
            (locs.getD i ⟨0, 0, 0⟩)) := by
      rw [get_positions_fst]
      exact getD_map_lt _ _ _ hi (Vec3.mk 0 0 0) (Vec3.mk 0 0 0)
    have hma : i < ((morphLocs.getD k []).map
        (posTransform armaturePresent locTransform)).length := by
      rw [List.length_map, hlen]
      exact hi
    have hmb : i < (locs.map (posTransform armaturePresent locTransform)).length := by
      rw [List.length_map]
      exact hi
    have hzl : i < (((morphLocs.getD k []).map
        (posTransform armaturePresent locTransform)).zipWith Vec3.sub
        (locs.map (posTransform armaturePresent locTransform))).length := by
      rw [List.length_zipWith]
      exact lt_min hma hmb
    have h2 : ((get_positions armaturePresent locTransform yup locs
        morphLocs).2.getD k []).getD i ⟨0, 0, 0⟩
        = yupApply yup ((posTransform armaturePresent locTransform
            ((morphLocs.getD k []).getD i ⟨0, 0, 0⟩)).sub
            (posTransform armaturePresent locTransform
              (locs.getD i ⟨0, 0, 0⟩))) := by
      simp only [get_positions_snd]
      simp only [getD_map_lt _ _ _ hk ([] : List Vec3)]
      simp only [getD_map_lt _ _ _ hzl (Vec3.mk 0 0 0)]
      simp only [getD_zipWith_lt _ _ _ _ hma hmb (Vec3.mk 0 0 0) (Vec3.mk 0 0 0)
        (Vec3.mk 0 0 0)]
      simp only [getD_map_lt _ _ _ (show i < (morphLocs.getD k []).length by
        rw [hlen]; exact hi) (Vec3.mk 0 0 0)]
      simp only [getD_map_lt _ _ _ hi (Vec3.mk 0 0 0)]
    rw [h1, h2]
    exact yupApply_add_sub yup _ _
  · have h1 : (get_normals armaturePresent normalTransform nrm yup normals
        morphNormals).1.getD j ⟨0, 0, 0⟩
        = yupApply yup (normalStep armaturePresent normalTransform nrm
            (normals.getD j ⟨0, 0, 0⟩)) := by
      rw [get_normals_fst]
      exact getD_map_lt _ _ _ hj (Vec3.mk 0 0 0) (Vec3.mk 0 0 0)
    have hma : j < ((morphNormals.getD kn []).map
        (normalStep armaturePresent normalTransform nrm)).length := by
      rw [List.length_map, hlenN]
      exact hj
    have hmb : j < (normals.map
        (normalStep armaturePresent normalTransform nrm)).length := by
      rw [List.length_map]
      exact hj
    have hzl : j < (((morphNormals.getD kn []).map
        (normalStep armaturePresent normalTransform nrm)).zipWith Vec3.sub
        (normals.map (normalStep armaturePresent normalTransform nrm))).length := by
      rw [List.length_zipWith]
      exact lt_min hma hmb
    have h2 : ((get_normals armaturePresent normalTransform nrm yup normals
        morphNormals).2.getD kn []).getD j ⟨0, 0, 0⟩
        = yupApply yup ((normalStep armaturePresent normalTransform nrm
            ((morphNormals.getD kn []).getD j ⟨0, 0, 0⟩)).sub
            (normalStep armaturePresent normalTransform nrm
              (normals.getD j ⟨0, 0, 0⟩))) := by
      simp only [get_normals_snd]
      simp only [getD_map_lt _ _ _ hkn ([] : List Vec3)]
      simp only [getD_map_lt _ _ _ hzl (Vec3.mk 0 0 0)]
      simp only [getD_zipWith_lt _ _ _ _ hma hmb (Vec3.mk 0 0 0) (Vec3.mk 0 0 0)
        (Vec3.mk 0 0 0)]
      simp only [getD_map_lt _ _ _ (show j < (morphNormals.getD kn []).length by
        rw [hlenN]; exact hj) (Vec3.mk 0 0 0)]
      simp only [getD_map_lt _ _ _ hj (Vec3.mk 0 0 0)]
    rw [h1, h2]
    exact yupApply_add_sub yup _ _

end GltfExtract

namespace GltfExtract

/-- Witness for C8 at a one-vertex, one-corner, one-morph-target input with a
translation re-basing and the Y-up remap enabled. -/
theorem claim8_witness :
    (0 : ℕ) < ([[⟨2, 3, 4⟩]] : List (List Vec3)).length
    ∧ (0 : ℕ) < ([⟨1, 2, 3⟩] : List Vec3).length
    ∧ (([[⟨2, 3, 4⟩]] : List (List Vec3)).getD 0 []).length
        = ([⟨1, 2, 3⟩] : List Vec3).length
    ∧ (0 : ℕ) < ([[⟨1, 0, 0⟩]] : List (List Vec3)).length
    ∧ (0 : ℕ) < ([⟨0, 0, 1⟩] : List Vec3).length
    ∧ (([[⟨1, 0, 0⟩]] : List (List Vec3)).getD 0 []).length
        = ([⟨0, 0, 1⟩] : List Vec3).length
    ∧ (((get_positions true ⟨⟨⟨1, 0, 0⟩, ⟨0, 1, 0⟩, ⟨0, 0, 1⟩⟩, ⟨1, 0, 0⟩⟩ true
            [⟨1, 2, 3⟩] [[⟨2, 3, 4⟩]]).1.getD 0 ⟨0, 0, 0⟩).add
          (((get_positions true ⟨⟨⟨1, 0, 0⟩, ⟨0, 1, 0⟩, ⟨0, 0, 1⟩⟩, ⟨1, 0, 0⟩⟩ true
            [⟨1, 2, 3⟩] [[⟨2, 3, 4⟩]]).2.getD 0 []).getD 0 ⟨0, 0, 0⟩)
        = yupApply true (posTransform true
            ⟨⟨⟨1, 0, 0⟩, ⟨0, 1, 0⟩, ⟨0, 0, 1⟩⟩, ⟨1, 0, 0⟩⟩
            ((([[⟨2, 3, 4⟩]] : List (List Vec3)).getD 0 []).getD 0 ⟨0, 0, 0⟩))
      ∧ ((get_normals true ⟨⟨1, 0, 0⟩, ⟨0, 1, 0⟩, ⟨0, 0, 1⟩⟩ (fun v => v.x) true
            [⟨0, 0, 1⟩] [[⟨1, 0, 0⟩]]).1.getD 0 ⟨0, 0, 0⟩).add
          (((get_normals true ⟨⟨1, 0, 0⟩, ⟨0, 1, 0⟩, ⟨0, 0, 1⟩⟩ (fun v => v.x) true
            [⟨0, 0, 1⟩] [[⟨1, 0, 0⟩]]).2.getD 0 []).getD 0 ⟨0, 0, 0⟩)
        = yupApply true (normalStep true ⟨⟨1, 0, 0⟩, ⟨0, 1, 0⟩, ⟨0, 0, 1⟩⟩
            (fun v => v.x)
            ((([[⟨1, 0, 0⟩]] : List (List Vec3)).getD 0 []).getD 0 ⟨0, 0, 0⟩))) :=
  ⟨by decide, by decide, by decide, by decide, by decide, by decide,
    claim8_morph_delta_roundtrip true
      ⟨⟨⟨1, 0, 0⟩, ⟨0, 1, 0⟩, ⟨0, 0, 1⟩⟩, ⟨1, 0, 0⟩⟩
      ⟨⟨1, 0, 0⟩, ⟨0, 1, 0⟩, ⟨0, 0, 1⟩⟩ (fun v => v.x) true
      [⟨1, 2, 3⟩] [[⟨2, 3, 4⟩]] [⟨0, 0, 1⟩] [[⟨1, 0, 0⟩]] 0 0 0 0
      (by decide) (by decide) (by decide) (by decide) (by decide) (by decide)⟩

end GltfExtract
